import Mathlib

/-!
# Verification of the DIGIPIN encoder/decoder (src/digipin_cli.py)

A shallow embedding of the core of the DIGIPIN CLI: the encoder
`get_digipin` and the decoder `get_lat_lng_from_digi_pin`, together with the
static configuration (`DIGIPIN_GRID`, `BOUNDS`).

Python `float` arithmetic is modelled with exact rationals (`ℚ`).  All the
arithmetic the algorithm performs — subtracting bounds, dividing widths by 4,
`math.floor` of a quotient, multiplying a width by a small integer, midpoints —
is modelled exactly; the decoder's 6-decimal-place output formatting is
modelled by rounding to a multiple of 10⁻⁶.
-/

namespace Digipin

/-- The 4×4 symbol grid `DIGIPIN_GRID` (src/digipin_cli.py lines 11–16). -/
def DIGIPIN_GRID : List (List Char) :=
  [['F', 'C', '9', '8'],
   ['J', '3', '2', '7'],
   ['K', '4', '5', '6'],
   ['L', 'M', 'P', 'T']]

/-- The global bounding box `BOUNDS` (src/digipin_cli.py lines 18–23). -/
structure Box where
  minLat : ℚ
  maxLat : ℚ
  minLon : ℚ
  maxLon : ℚ
deriving DecidableEq

/-- Values of `BOUNDS`: minLat=2.5, maxLat=38.5, minLon=63.5, maxLon=99.5. -/
def BOUNDS : Box := ⟨2.5, 38.5, 63.5, 99.5⟩

/-- The 16 symbols of the grid alphabet (the entries of `DIGIPIN_GRID`). -/
def DIGIPIN_ALPHABET : List Char := DIGIPIN_GRID.flatten

/-- Structured model of the `ValueError`s raised by the two core functions. -/
inductive DigipinError where
  /-- Error raised at line 40: latitude out of range, citing the latitude
  and the two violated-range endpoints. -/
  | latOutOfRange (lat lo hi : ℚ)
  /-- Error raised at line 42: longitude out of range, citing the longitude
  and the two violated-range endpoints. -/
  | lonOutOfRange (lon lo hi : ℚ)
  /-- Error raised at line 101: wrong cleaned length, reporting the actual
  length. -/
  | invalidLength (n : Nat)
  /-- Error raised at line 116: invalid character, reporting the character
  and its 1-based position. -/
  | invalidChar (c : Char) (pos : Nat)
deriving DecidableEq

/-! ## Encoder (`get_digipin`, lines 25–83) -/

/-- Source line 52: `lat_div = (max_lat - min_lat) / 4`. -/
def latDiv (b : Box) : ℚ := (b.maxLat - b.minLat) / 4

/-- Source line 53: `lon_div = (max_lon - min_lon) / 4`. -/
def lonDiv (b : Box) : ℚ := (b.maxLon - b.minLon) / 4

/-- The clamping `max(0, min(i, 3))` applied to row and column (lines 61–62). -/
def clamp03 (i : ℤ) : ℤ := max 0 (min i 3)

/-- Source lines 57 and 61: `row = 3 - math.floor((lat - min_lat) / lat_div)`, clamped. -/
def encRow (lat : ℚ) (b : Box) : ℤ :=
  clamp03 (3 - ⌊(lat - b.minLat) / latDiv b⌋)

/-- Source lines 58 and 62: `col = math.floor((lon - min_lon) / lon_div)`, clamped. -/
def encCol (lon : ℚ) (b : Box) : ℤ :=
  clamp03 ⌊(lon - b.minLon) / lonDiv b⌋

/-- The grid lookup of line 64; made total via a default that is not a grid
symbol, so a successful (in-alphabet) lookup certifies in-range indices. -/
def gridChar (row col : ℤ) : Char :=
  ((DIGIPIN_GRID.getD row.toNat []).getD col.toNat ' ')

/-- The encoder's narrowing of the bounding box to the selected cell
(lines 74–81).  Note line 81 computes `max_lon` from the already-updated
`min_lon`. -/
def narrowBoxEncode (b : Box) (row col : ℤ) : Box :=
  let tempMaxLat := b.minLat + latDiv b * (4 - (row : ℚ))
  let tempMinLat := b.minLat + latDiv b * (3 - (row : ℚ))
  let newMinLon := b.minLon + lonDiv b * (col : ℚ)
  let newMaxLon := newMinLon + lonDiv b
  ⟨tempMinLat, tempMaxLat, newMinLon, newMaxLon⟩

/-- One full level of the encoder loop body applied to the bounding box. -/
def encodeNextBox (lat lon : ℚ) (b : Box) : Box :=
  narrowBoxEncode b (encRow lat b) (encCol lon b)

/-- Source lines 67–68: a separator hyphen is appended after levels 3 and 6. -/
def seps (level : Nat) : List Char :=
  if level = 3 ∨ level = 6 then ['-'] else []

/-- The list of levels iterated by line 51, Python `range(1, 11)`. -/
def digipinLevels : List Nat := [1, 2, 3, 4, 5, 6, 7, 8, 9, 10]

/-- The encoder loop (lines 49–81): emits one grid symbol per level (plus the
separators after levels 3 and 6) and narrows the bounding box. -/
def encodeLevels (lat lon : ℚ) : List Nat → Box → List Char
  | [], _ => []
  | level :: rest, b =>
      (gridChar (encRow lat b) (encCol lon b) :: seps level)
        ++ encodeLevels lat lon rest (encodeNextBox lat lon b)

/-- The sequence of (row, col) index pairs the encoder loop computes at each
level (lines 57–62), after clamping, in level order. -/
def encodeTrace (lat lon : ℚ) : List Nat → Box → List (ℤ × ℤ)
  | [], _ => []
  | _ :: rest, b =>
      (encRow lat b, encCol lon b) :: encodeTrace lat lon rest (encodeNextBox lat lon b)

/-- The encoder `get_digipin` (lines 25–83): bounds validation, then the 10-level loop. -/
def get_digipin (lat lon : ℚ) : Except DigipinError String :=
  if ¬ (BOUNDS.minLat ≤ lat ∧ lat ≤ BOUNDS.maxLat) then
    .error (.latOutOfRange lat BOUNDS.minLat BOUNDS.maxLat)
  else if ¬ (BOUNDS.minLon ≤ lon ∧ lon ≤ BOUNDS.maxLon) then
    .error (.lonOutOfRange lon BOUNDS.minLon BOUNDS.maxLon)
  else
    .ok ⟨encodeLevels lat lon digipinLevels BOUNDS⟩

/-! ## Decoder (`get_lat_lng_from_digi_pin`, lines 85–145) -/

/-- Line 109: the reverse lookup table built over all 16 cells. -/
def gridPairs : List (Char × Nat × Nat) :=
  (List.range 4).flatMap fun r =>
    (List.range 4).map fun c => (gridChar (Int.ofNat r) (Int.ofNat c), r, c)

/-- Line 114: dictionary lookup of a character, `None` when absent. -/
def grid_char_to_coords (ch : Char) : Option (Nat × Nat) :=
  (gridPairs.find? fun p => p.1 = ch).map Prod.snd

/-- The decoder's narrowing of the bounding box for one symbol
(lines 120–137). -/
def narrowBoxDecode (b : Box) (r c : Nat) : Box :=
  let newMinLat := b.maxLat - latDiv b * ((r : ℚ) + 1)
  let newMaxLat := b.maxLat - latDiv b * (r : ℚ)
  let newMinLon := b.minLon + lonDiv b * (c : ℚ)
  let newMaxLon := b.minLon + lonDiv b * ((c : ℚ) + 1)
  ⟨newMinLat, newMaxLat, newMinLon, newMaxLon⟩

/-- The decoder loop (lines 111–137): `idx` is the 0-based `char_index`. -/
def decodeLoop : List Char → Nat → Box → Except DigipinError Box
  | [], _, b => .ok b
  | ch :: rest, idx, b =>
      match grid_char_to_coords ch with
      | none => .error (.invalidChar ch (idx + 1))
      | some (r, c) => decodeLoop rest (idx + 1) (narrowBoxDecode b r c)

/-- Line 99: removal of every hyphen from the input. -/
def removeHyphens (s : String) : String := ⟨s.data.filter (· ≠ '-')⟩

/-- Python's 6-decimal-place string formatting of the cell centre (source
lines 143–144): rounding to the nearest multiple of 10⁻⁶.  (Decoded centres are dyadic rationals, for which
a tie between the two nearest multiples is impossible, so round-half-up and
Python's round-half-even agree on every value this is applied to.) -/
def round6 (x : ℚ) : ℚ := (round (x * 1000000) : ℚ) / 1000000

/-- The decoder `get_lat_lng_from_digi_pin` (lines 85–145): strip hyphens,
validate the length, run the 10-symbol loop, return the (formatted) centre of
the final cell. -/
def get_lat_lng_from_digi_pin (digi_pin : String) : Except DigipinError (ℚ × ℚ) :=
  let pin_cleaned := (removeHyphens digi_pin).data
  if pin_cleaned.length ≠ 10 then
    .error (.invalidLength pin_cleaned.length)
  else
    match decodeLoop pin_cleaned 0 BOUNDS with
    | .error e => .error e
    | .ok b =>
        .ok (round6 ((b.minLat + b.maxLat) / 2), round6 ((b.minLon + b.maxLon) / 2))

/-! ## Basic lemmas about the grid and the clamped indices -/

lemma clamp03_nonneg (i : ℤ) : 0 ≤ clamp03 i := le_max_left 0 _

lemma clamp03_le_three (i : ℤ) : clamp03 i ≤ 3 := by
  unfold clamp03; omega

lemma gridChar_mem (r c : ℤ) (hr0 : 0 ≤ r) (hr3 : r ≤ 3) (hc0 : 0 ≤ c) (hc3 : c ≤ 3) :
    gridChar r c ∈ DIGIPIN_ALPHABET := by
  interval_cases r <;> interval_cases c <;> decide

lemma gridChar_ne_hyphen (r c : ℤ) (hr0 : 0 ≤ r) (hr3 : r ≤ 3) (hc0 : 0 ≤ c) (hc3 : c ≤ 3) :
    gridChar r c ≠ '-' := by
  interval_cases r <;> interval_cases c <;> decide

lemma encChar_mem (lat lon : ℚ) (b : Box) :
    gridChar (encRow lat b) (encCol lon b) ∈ DIGIPIN_ALPHABET :=
  gridChar_mem _ _ (clamp03_nonneg _) (clamp03_le_three _) (clamp03_nonneg _)
    (clamp03_le_three _)

/-- The reverse lookup inverts the grid on in-range indices. -/
lemma lookup_gridChar (r c : ℤ) (hr0 : 0 ≤ r) (hr3 : r ≤ 3) (hc0 : 0 ≤ c) (hc3 : c ≤ 3) :
    grid_char_to_coords (gridChar r c) = some (r.toNat, c.toNat) := by
  interval_cases r <;> interval_cases c <;> decide

/-- Every pair produced by the reverse lookup has both indices ≤ 3. -/
lemma lookup_bounds {ch : Char} {r c : Nat} (h : grid_char_to_coords ch = some (r, c)) :
    r ≤ 3 ∧ c ≤ 3 := by
  unfold grid_char_to_coords at h
  cases hf : gridPairs.find? fun p => p.1 = ch with
  | none => simp [hf] at h
  | some p =>
      have hmem : p ∈ gridPairs := List.mem_of_find?_eq_some hf
      have hall : ∀ q ∈ gridPairs, q.2.1 ≤ 3 ∧ q.2.2 ≤ 3 := by decide
      simp only [hf, Option.map_some'] at h
      have hb := hall p hmem
      injection h with h2
      rw [h2] at hb
      exact hb

/-- A character has a reverse-lookup entry iff it is a grid symbol. -/
lemma lookup_isSome_iff (ch : Char) :
    (∃ rc, grid_char_to_coords ch = some rc) ↔ ch ∈ DIGIPIN_ALPHABET := by
  unfold grid_char_to_coords
  cases hf : gridPairs.find? fun p => p.1 = ch with
  | none =>
      simp only [Option.map_none']
      constructor
      · rintro ⟨rc, h⟩; cases h
      · intro hmem
        exfalso
        have hnone := List.find?_eq_none.mp hf
        have : ch ∈ gridPairs.map Prod.fst := by
          have : gridPairs.map Prod.fst = DIGIPIN_ALPHABET := by decide
          rw [this]; exact hmem
        obtain ⟨p, hp, hpe⟩ := List.mem_map.mp this
        exact absurd (by simpa using hpe) (by simpa using hnone p hp)
  | some p =>
      simp only [Option.map_some']
      constructor
      · intro _
        have hmem : p ∈ gridPairs := List.mem_of_find?_eq_some hf
        have hpe : p.1 = ch := by simpa using List.find?_some hf
        have hall : ∀ q ∈ gridPairs, q.1 ∈ DIGIPIN_ALPHABET := by decide
        rw [← hpe]; exact hall p hmem
      · intro _; exact ⟨p.2, rfl⟩

/-- The decoder's narrowing formula agrees with the encoder's on any box
(the claim C8 algebra, in the general integer-index form used by proofs). -/
lemma narrowBoxDecode_eq_encode (b : Box) (r c : ℤ) (hr : 0 ≤ r) (hc : 0 ≤ c) :
    narrowBoxDecode b r.toNat c.toNat = narrowBoxEncode b r c := by
  have hr' : ((r.toNat : ℚ)) = (r : ℚ) := by
    rw [← Int.cast_natCast, Int.toNat_of_nonneg hr]
  have hc' : ((c.toNat : ℚ)) = (c : ℚ) := by
    rw [← Int.cast_natCast, Int.toNat_of_nonneg hc]
  simp only [narrowBoxDecode, narrowBoxEncode, latDiv, lonDiv, hr', hc', Box.mk.injEq]
  refine ⟨by ring_nf, by ring_nf, by ring_nf, by ring_nf⟩

/-- Filtering the separators out of `seps` leaves nothing. -/
lemma seps_filter (level : Nat) : (seps level).filter (· ≠ '-') = [] := by
  unfold seps
  split <;> rfl

/-! ## Theorems for the claims -/

/-- C8: for every bounding box with `maxLat − minLat = 4·latDiv` (which holds
by construction of `latDiv`) and all row/column indices in [0, 3], the
decoder's narrowing formulas (computed from `maxLat`) select exactly the same
sub-box as the encoder's narrowing formulas (computed from `minLat`): the two
independently written formulations are algebraically equivalent. -/
theorem narrowing_formulations_equivalent (b : Box) (r c : Nat)
    (_hr : r ≤ 3) (_hc : c ≤ 3) :
    b.maxLat - b.minLat = 4 * latDiv b ∧
    narrowBoxDecode b r c = narrowBoxEncode b (r : ℤ) (c : ℤ) := by
  constructor
  · unfold latDiv; ring_nf
  · have h := narrowBoxDecode_eq_encode b (r : ℤ) (c : ℤ) (Int.ofNat_nonneg r)
      (Int.ofNat_nonneg c)
    simpa using h

/-- Witness for C8 at the global box with row 2, column 1. -/
theorem narrowing_formulations_equivalent_witness :
    (2 ≤ 3 ∧ 1 ≤ 3) ∧
    (BOUNDS.maxLat - BOUNDS.minLat = 4 * latDiv BOUNDS ∧
      narrowBoxDecode BOUNDS 2 1 = narrowBoxEncode BOUNDS (2 : ℤ) (1 : ℤ)) :=
  ⟨⟨by decide, by decide⟩,
    narrowing_formulations_equivalent BOUNDS 2 1 (by decide) (by decide)⟩

/-- C10: the encoder maps the reference coordinate (28.622788, 77.213033) to
exactly the string "39J-49L-L8T4". -/
theorem reference_vector :
    get_digipin (28.622788 : ℚ) (77.213033 : ℚ) = .ok "39J-49L-L8T4" := by
  with_unfolding_all rfl

/-- C4: the encoder fails with the latitude out-of-range error (citing the
latitude and the violated bounds) iff the latitude is outside [2.5, 38.5];
it fails with the longitude error iff the latitude is in range and the
longitude is outside [63.5, 99.5]; it succeeds iff both are in range; and
`encode(-1, 77)` fails citing latitude. -/
theorem encode_out_of_range_iff :
    (∀ lat lon : ℚ,
      (get_digipin lat lon = .error (.latOutOfRange lat 2.5 38.5) ↔
        ¬((2.5 : ℚ) ≤ lat ∧ lat ≤ 38.5)) ∧
      (get_digipin lat lon = .error (.lonOutOfRange lon 63.5 99.5) ↔
        (((2.5 : ℚ) ≤ lat ∧ lat ≤ 38.5) ∧ ¬((63.5 : ℚ) ≤ lon ∧ lon ≤ 99.5))) ∧
      ((∃ s, get_digipin lat lon = .ok s) ↔
        (((2.5 : ℚ) ≤ lat ∧ lat ≤ 38.5) ∧ ((63.5 : ℚ) ≤ lon ∧ lon ≤ 99.5)))) ∧
    get_digipin (-1 : ℚ) (77 : ℚ) = .error (.latOutOfRange (-1) 2.5 38.5) := by
  constructor
  · intro lat lon
    by_cases h1 : (2.5 : ℚ) ≤ lat ∧ lat ≤ 38.5 <;>
      by_cases h2 : (63.5 : ℚ) ≤ lon ∧ lon ≤ 99.5 <;>
        simp [get_digipin, BOUNDS, h1, h2]
  · with_unfolding_all rfl

/-- C7: hyphens carry no information — decoding any string equals decoding
the same string with every '-' removed, and the two reference spellings of
the same code decode identically. -/
theorem decode_separator_invariance :
    (∀ s : String,
      get_lat_lng_from_digi_pin (removeHyphens s) = get_lat_lng_from_digi_pin s) ∧
    get_lat_lng_from_digi_pin "39J-49L-L8T4" = get_lat_lng_from_digi_pin "39J49LL8T4" := by
  constructor
  · intro s
    have h : removeHyphens (removeHyphens s) = removeHyphens s := by
      simp [removeHyphens, List.filter_filter]
    simp only [get_lat_lng_from_digi_pin, h]
  · with_unfolding_all rfl

/-- The decoder loop never produces a length error. -/
lemma decodeLoop_ne_invalidLength (cs : List Char) (idx : Nat) (b : Box) (n : Nat) :
    decodeLoop cs idx b ≠ .error (.invalidLength n) := by
  induction cs generalizing idx b with
  | nil => simp [decodeLoop]
  | cons ch rest ih =>
      simp only [decodeLoop]
      cases h : grid_char_to_coords ch with
      | none => simp
      | some rc =>
          obtain ⟨r, c⟩ := rc
          exact ih (idx + 1) (narrowBoxDecode b r c)

/-- C5: the decoder fails with the length error, reporting the actual cleaned
length, iff the input with separators removed does not have exactly 10
characters; and `decode("1234567")` reports length 7. -/
theorem decode_invalid_length_iff :
    (∀ (s : String) (n : Nat),
      get_lat_lng_from_digi_pin s = .error (.invalidLength n) ↔
        (n = (removeHyphens s).data.length ∧ n ≠ 10)) ∧
    get_lat_lng_from_digi_pin "1234567" = .error (.invalidLength 7) := by
  constructor
  · intro s n
    simp only [get_lat_lng_from_digi_pin]
    by_cases h : (removeHyphens s).data.length = 10
    · rw [if_neg (by simp [h])]
      cases hd : decodeLoop (removeHyphens s).data 0 BOUNDS with
      | error e =>
          constructor
          · intro he
            have he2 : e = .invalidLength n := by simpa using he
            exact absurd (he2 ▸ hd) (decodeLoop_ne_invalidLength _ _ _ n)
          · rintro ⟨rfl, hne⟩
            exact absurd h hne
      | ok b =>
          constructor
          · intro he; simp at he
          · rintro ⟨rfl, hne⟩
            exact absurd h hne
    · rw [if_pos (by simpa using h)]
      constructor
      · intro he
        have hlen : (removeHyphens s).data.length = n := by simpa using he
        exact ⟨hlen.symm, by omega⟩
      · rintro ⟨rfl, _⟩
        rfl
  · with_unfolding_all rfl

/-- The encoder's output over the ten levels always has the literal shape
three symbols, a hyphen, three symbols, a hyphen, four symbols. -/
lemma encodeLevels_shape (lat lon : ℚ) (b : Box) :
    ∃ c1 c2 c3 c4 c5 c6 c7 c8 c9 c10 : Char,
      encodeLevels lat lon digipinLevels b =
        [c1, c2, c3, '-', c4, c5, c6, '-', c7, c8, c9, c10] ∧
      c1 ∈ DIGIPIN_ALPHABET ∧ c2 ∈ DIGIPIN_ALPHABET ∧ c3 ∈ DIGIPIN_ALPHABET ∧
      c4 ∈ DIGIPIN_ALPHABET ∧ c5 ∈ DIGIPIN_ALPHABET ∧ c6 ∈ DIGIPIN_ALPHABET ∧
      c7 ∈ DIGIPIN_ALPHABET ∧ c8 ∈ DIGIPIN_ALPHABET ∧ c9 ∈ DIGIPIN_ALPHABET ∧
      c10 ∈ DIGIPIN_ALPHABET := by
  refine ⟨_, _, _, _, _, _, _, _, _, _, rfl, ?_, ?_, ?_, ?_, ?_, ?_, ?_, ?_, ?_, ?_⟩ <;>
    exact encChar_mem _ _ _

/-- C2: for every in-bounds coordinate the encoder succeeds, deterministically,
and its output is exactly ten grid-alphabet symbols with a hyphen after the
third and after the sixth symbol (a 12-character string). -/
theorem encode_output_format (lat lon : ℚ)
    (hlat : (2.5 : ℚ) ≤ lat ∧ lat ≤ 38.5) (hlon : (63.5 : ℚ) ≤ lon ∧ lon ≤ 99.5) :
    ∃ s : String, get_digipin lat lon = .ok s ∧
      (∃ c1 c2 c3 c4 c5 c6 c7 c8 c9 c10 : Char,
        s.data = [c1, c2, c3, '-', c4, c5, c6, '-', c7, c8, c9, c10] ∧
        c1 ∈ DIGIPIN_ALPHABET ∧ c2 ∈ DIGIPIN_ALPHABET ∧ c3 ∈ DIGIPIN_ALPHABET ∧
        c4 ∈ DIGIPIN_ALPHABET ∧ c5 ∈ DIGIPIN_ALPHABET ∧ c6 ∈ DIGIPIN_ALPHABET ∧
        c7 ∈ DIGIPIN_ALPHABET ∧ c8 ∈ DIGIPIN_ALPHABET ∧ c9 ∈ DIGIPIN_ALPHABET ∧
        c10 ∈ DIGIPIN_ALPHABET) ∧
      get_digipin lat lon = get_digipin lat lon := by
  refine ⟨⟨encodeLevels lat lon digipinLevels BOUNDS⟩, ?_, ?_, rfl⟩
  · simp [get_digipin, BOUNDS, hlat, hlon]
  · exact encodeLevels_shape lat lon BOUNDS

/-- Witness for C2 at the reference coordinate. -/
theorem encode_output_format_witness :
    (((2.5 : ℚ) ≤ 28.622788 ∧ (28.622788 : ℚ) ≤ 38.5) ∧
      ((63.5 : ℚ) ≤ 77.213033 ∧ (77.213033 : ℚ) ≤ 99.5)) ∧
    (∃ s : String, get_digipin 28.622788 77.213033 = .ok s ∧
      (∃ c1 c2 c3 c4 c5 c6 c7 c8 c9 c10 : Char,
        s.data = [c1, c2, c3, '-', c4, c5, c6, '-', c7, c8, c9, c10] ∧
        c1 ∈ DIGIPIN_ALPHABET ∧ c2 ∈ DIGIPIN_ALPHABET ∧ c3 ∈ DIGIPIN_ALPHABET ∧
        c4 ∈ DIGIPIN_ALPHABET ∧ c5 ∈ DIGIPIN_ALPHABET ∧ c6 ∈ DIGIPIN_ALPHABET ∧
        c7 ∈ DIGIPIN_ALPHABET ∧ c8 ∈ DIGIPIN_ALPHABET ∧ c9 ∈ DIGIPIN_ALPHABET ∧
        c10 ∈ DIGIPIN_ALPHABET) ∧
      get_digipin 28.622788 77.213033 = get_digipin 28.622788 77.213033) :=
  ⟨⟨⟨by norm_num, by norm_num⟩, ⟨by norm_num, by norm_num⟩⟩,
    encode_output_format 28.622788 77.213033 ⟨by norm_num, by norm_num⟩
      ⟨by norm_num, by norm_num⟩⟩

/-- All (row, col) pairs the encoder's loop ever computes are clamped. -/
lemma encodeTrace_clamped (lat lon : ℚ) : ∀ (levels : List Nat) (b : Box),
    ∀ p ∈ encodeTrace lat lon levels b,
      0 ≤ p.1 ∧ p.1 ≤ 3 ∧ 0 ≤ p.2 ∧ p.2 ≤ 3 ∧ gridChar p.1 p.2 ∈ DIGIPIN_ALPHABET := by
  intro levels
  induction levels with
  | nil => intro b p hp; simp [encodeTrace] at hp
  | cons l rest ih =>
      intro b p hp
      simp only [encodeTrace, List.mem_cons] at hp
      rcases hp with rfl | hp
      · exact ⟨clamp03_nonneg _, clamp03_le_three _, clamp03_nonneg _, clamp03_le_three _,
          encChar_mem lat lon b⟩
      · exact ih _ p hp

/-- C9: for every in-bounds coordinate — including ones on a cell edge or on
the bounding-box maximum — the row and column index computed at each of the
10 levels is clamped into [0, 3], so the grid lookup is always in range (it
always yields an alphabet symbol, never the out-of-range default). -/
theorem encode_indices_clamped (lat lon : ℚ)
    (_hlat : (2.5 : ℚ) ≤ lat ∧ lat ≤ 38.5) (_hlon : (63.5 : ℚ) ≤ lon ∧ lon ≤ 99.5) :
    ∀ p ∈ encodeTrace lat lon digipinLevels BOUNDS,
      0 ≤ p.1 ∧ p.1 ≤ 3 ∧ 0 ≤ p.2 ∧ p.2 ≤ 3 ∧ gridChar p.1 p.2 ∈ DIGIPIN_ALPHABET :=
  encodeTrace_clamped lat lon digipinLevels BOUNDS

/-- Witness for C9 at the extreme corner (lat = 38.5, lon = 99.5), which sits
exactly on the bounding-box maximum in both axes, instantiated at the level-1
index pair (0, 3) that this corner produces. -/
theorem encode_indices_clamped_witness :
    (((2.5 : ℚ) ≤ 38.5 ∧ (38.5 : ℚ) ≤ 38.5) ∧
      ((63.5 : ℚ) ≤ 99.5 ∧ (99.5 : ℚ) ≤ 99.5) ∧
      ((0, 3) : ℤ × ℤ) ∈ encodeTrace 38.5 99.5 digipinLevels BOUNDS) ∧
    (0 ≤ ((0, 3) : ℤ × ℤ).1 ∧ ((0, 3) : ℤ × ℤ).1 ≤ 3 ∧
      0 ≤ ((0, 3) : ℤ × ℤ).2 ∧ ((0, 3) : ℤ × ℤ).2 ≤ 3 ∧
      gridChar ((0, 3) : ℤ × ℤ).1 ((0, 3) : ℤ × ℤ).2 ∈ DIGIPIN_ALPHABET) :=
  ⟨⟨⟨by norm_num, by norm_num⟩, ⟨by norm_num, by norm_num⟩,
      by with_unfolding_all decide⟩,
    encode_indices_clamped 38.5 99.5 ⟨by norm_num, le_refl _⟩ ⟨by norm_num, le_refl _⟩
      ((0, 3) : ℤ × ℤ) (by with_unfolding_all decide)⟩

lemma four_mul_latDiv (b : Box) : 4 * latDiv b = b.maxLat - b.minLat := by
  unfold latDiv; ring_nf

lemma four_mul_lonDiv (b : Box) : 4 * lonDiv b = b.maxLon - b.minLon := by
  unfold lonDiv; ring_nf

/-- One decoder step stays inside the current box and quarters both widths. -/
lemma narrowBoxDecode_spec (b : Box) (r c : Nat) (hr : r ≤ 3) (hc : c ≤ 3)
    (hwlat : 0 < b.maxLat - b.minLat) (hwlon : 0 < b.maxLon - b.minLon) :
    b.minLat ≤ (narrowBoxDecode b r c).minLat ∧
    (narrowBoxDecode b r c).maxLat ≤ b.maxLat ∧
    b.minLon ≤ (narrowBoxDecode b r c).minLon ∧
    (narrowBoxDecode b r c).maxLon ≤ b.maxLon ∧
    (narrowBoxDecode b r c).maxLat - (narrowBoxDecode b r c).minLat
      = (b.maxLat - b.minLat) / 4 ∧
    (narrowBoxDecode b r c).maxLon - (narrowBoxDecode b r c).minLon
      = (b.maxLon - b.minLon) / 4 := by
  have hr' : ((r : ℚ)) ≤ 3 := by exact_mod_cast hr
  have hr0 : (0 : ℚ) ≤ (r : ℚ) := Nat.cast_nonneg r
  have hc' : ((c : ℚ)) ≤ 3 := by exact_mod_cast hc
  have hc0 : (0 : ℚ) ≤ (c : ℚ) := Nat.cast_nonneg c
  have hdlat : 0 < latDiv b := by unfold latDiv; linarith
  have hdlon : 0 < lonDiv b := by unfold lonDiv; linarith
  have h4lat := four_mul_latDiv b
  have h4lon := four_mul_lonDiv b
  dsimp only [narrowBoxDecode]
  refine ⟨?_, ?_, ?_, ?_, ?_, ?_⟩
  · have h1 : latDiv b * ((r : ℚ) + 1) ≤ latDiv b * 4 :=
      mul_le_mul_of_nonneg_left (by linarith) hdlat.le
    linarith
  · have h1 : 0 ≤ latDiv b * (r : ℚ) := mul_nonneg hdlat.le hr0
    linarith
  · have h1 : 0 ≤ lonDiv b * (c : ℚ) := mul_nonneg hdlon.le hc0
    linarith
  · have h1 : lonDiv b * ((c : ℚ) + 1) ≤ lonDiv b * 4 :=
      mul_le_mul_of_nonneg_left (by linarith) hdlon.le
    linarith
  · unfold latDiv; ring_nf
  · unfold lonDiv; ring_nf

/-- The decoder loop, when it succeeds, keeps the box inside the global
bounds and quarters each axis once per consumed symbol. -/
lemma decodeLoop_inv : ∀ (cs : List Char) (idx : Nat) (b bf : Box),
    decodeLoop cs idx b = .ok bf →
    BOUNDS.minLat ≤ b.minLat → b.maxLat ≤ BOUNDS.maxLat →
    BOUNDS.minLon ≤ b.minLon → b.maxLon ≤ BOUNDS.maxLon →
    0 < b.maxLat - b.minLat → 0 < b.maxLon - b.minLon →
    (BOUNDS.minLat ≤ bf.minLat ∧ bf.maxLat ≤ BOUNDS.maxLat ∧
     BOUNDS.minLon ≤ bf.minLon ∧ bf.maxLon ≤ BOUNDS.maxLon ∧
     bf.maxLat - bf.minLat = (b.maxLat - b.minLat) / 4 ^ cs.length ∧
     bf.maxLon - bf.minLon = (b.maxLon - b.minLon) / 4 ^ cs.length) := by
  intro cs
  induction cs with
  | nil =>
      intro idx b bf h h1 h2 h3 h4 h5 h6
      have hb : b = bf := by simpa [decodeLoop] using h
      subst hb
      refine ⟨h1, h2, h3, h4, ?_, ?_⟩ <;> simp
  | cons ch rest ih =>
      intro idx b bf h h1 h2 h3 h4 h5 h6
      simp only [decodeLoop] at h
      cases hcc : grid_char_to_coords ch with
      | none => rw [hcc] at h; cases h
      | some rc =>
          obtain ⟨r, c⟩ := rc
          rw [hcc] at h
          obtain ⟨hrb, hcb⟩ := lookup_bounds hcc
          obtain ⟨s1, s2, s3, s4, s5, s6⟩ := narrowBoxDecode_spec b r c hrb hcb h5 h6
          have hres := ih (idx + 1) (narrowBoxDecode b r c) bf h
            (by linarith) (by linarith) (by linarith) (by linarith)
            (by rw [s5]; positivity) (by rw [s6]; positivity)
          obtain ⟨t1, t2, t3, t4, t5, t6⟩ := hres
          refine ⟨t1, t2, t3, t4, ?_, ?_⟩
          · rw [t5, s5, List.length_cons]
            rw [pow_succ]
            ring
          · rw [t6, s6, List.length_cons]
            rw [pow_succ]
            ring

/-- The 6-decimal formatting moves a value by at most 5·10⁻⁷. -/
lemma round6_close (x : ℚ) : |round6 x - x| ≤ 1 / 2000000 := by
  unfold round6
  have h := abs_sub_round (x * 1000000)
  have heq : (round (x * 1000000) : ℚ) / 1000000 - x
      = -((x * 1000000 - (round (x * 1000000) : ℚ)) / 1000000) := by ring
  rw [heq, abs_neg, abs_div]
  rw [div_le_iff₀ (by norm_num : (0 : ℚ) < |(1000000 : ℚ)|)]
  calc |x * 1000000 - (round (x * 1000000) : ℚ)| ≤ 1 / 2 := h
    _ ≤ 1 / 2000000 * |(1000000 : ℚ)| := by
        rw [abs_of_pos (by norm_num : (0 : ℚ) < 1000000)]
        norm_num

/-- C3: every successfully decoded centre lies strictly inside the global
bounding box, and decoding is deterministic. -/
theorem decode_range_postcondition (s : String) (lat lon : ℚ)
    (h : get_lat_lng_from_digi_pin s = .ok (lat, lon)) :
    (2.5 : ℚ) < lat ∧ lat < 38.5 ∧ (63.5 : ℚ) < lon ∧ lon < 99.5 ∧
    get_lat_lng_from_digi_pin s = get_lat_lng_from_digi_pin s := by
  simp only [get_lat_lng_from_digi_pin] at h
  by_cases hlen : (removeHyphens s).data.length = 10
  · rw [if_neg (by simp [hlen])] at h
    cases hd : decodeLoop (removeHyphens s).data 0 BOUNDS with
    | error e => rw [hd] at h; cases h
    | ok b =>
        rw [hd] at h
        have hpair : round6 ((b.minLat + b.maxLat) / 2) = lat ∧
            round6 ((b.minLon + b.maxLon) / 2) = lon := by
          injection h with h2
          simpa [Prod.ext_iff] using h2
        obtain ⟨hlat, hlon⟩ := hpair
        have hinv := decodeLoop_inv (removeHyphens s).data 0 BOUNDS b hd
          (le_refl _) (le_refl _) (le_refl _) (le_refl _)
          (by norm_num [BOUNDS]) (by norm_num [BOUNDS])
        rw [hlen] at hinv
        obtain ⟨t1, t2, t3, t4, t5, t6⟩ := hinv
        rw [show BOUNDS.minLat = 2.5 from rfl] at t1
        rw [show BOUNDS.maxLat = 38.5 from rfl] at t2
        rw [show BOUNDS.minLon = 63.5 from rfl] at t3
        rw [show BOUNDS.maxLon = 99.5 from rfl] at t4
        norm_num [BOUNDS] at t5 t6
        obtain ⟨a1, a2⟩ := abs_le.mp (round6_close ((b.minLat + b.maxLat) / 2))
        obtain ⟨a3, a4⟩ := abs_le.mp (round6_close ((b.minLon + b.maxLon) / 2))
        rw [hlat] at a1 a2
        rw [hlon] at a3 a4
        refine ⟨by linarith, by linarith, by linarith, by linarith, rfl⟩
  · rw [if_pos (by simpa using hlen)] at h
    cases h

/-- Witness for C3 at the reference code (without separators). -/
theorem decode_range_postcondition_witness :
    get_lat_lng_from_digi_pin "39J49LL8T4"
      = .ok (28622793 / 1000000, 77213049 / 1000000) ∧
    ((2.5 : ℚ) < 28622793 / 1000000 ∧ (28622793 : ℚ) / 1000000 < 38.5 ∧
      (63.5 : ℚ) < 77213049 / 1000000 ∧ (77213049 : ℚ) / 1000000 < 99.5 ∧
      get_lat_lng_from_digi_pin "39J49LL8T4" = get_lat_lng_from_digi_pin "39J49LL8T4") :=
  ⟨by with_unfolding_all rfl,
    decode_range_postcondition "39J49LL8T4" (28622793 / 1000000) (77213049 / 1000000)
      (by with_unfolding_all rfl)⟩

/-- The decoder loop fails with an invalid-character error exactly when the
remaining input splits as a fully-valid prefix followed by a character outside
the alphabet; the reported character is that first offender and the reported
position is its 1-based index (offset by the starting index). -/
lemma decodeLoop_invalidChar_iff :
    ∀ (cs : List Char) (idx : Nat) (b : Box) (c : Char) (p : Nat),
    decodeLoop cs idx b = .error (.invalidChar c p) ↔
      ∃ l₁ l₂, cs = l₁ ++ c :: l₂ ∧ (∀ x ∈ l₁, x ∈ DIGIPIN_ALPHABET) ∧
        c ∉ DIGIPIN_ALPHABET ∧ p = idx + l₁.length + 1 := by
  intro cs
  induction cs with
  | nil =>
      intro idx b c p
      constructor
      · intro h; cases h
      · rintro ⟨l₁, l₂, hsplit, -, -, -⟩
        exact absurd hsplit (by simp)
  | cons ch rest ih =>
      intro idx b c p
      simp only [decodeLoop]
      cases hcc : grid_char_to_coords ch with
      | none =>
          have hch : ch ∉ DIGIPIN_ALPHABET := by
            intro hmem
            obtain ⟨rc, hrc⟩ := (lookup_isSome_iff ch).mpr hmem
            rw [hcc] at hrc; cases hrc
          constructor
          · intro he
            have hinj : ch = c ∧ idx + 1 = p := by
              have := he
              simp only [Except.error.injEq, DigipinError.invalidChar.injEq] at this
              exact this
            obtain ⟨rfl, rfl⟩ := hinj
            exact ⟨[], rest, rfl, by simp, hch, by simp⟩
          · rintro ⟨l₁, l₂, hsplit, hall, hc, rfl⟩
            cases l₁ with
            | nil =>
                simp only [List.nil_append, List.cons.injEq] at hsplit
                obtain ⟨rfl, rfl⟩ := hsplit
                simp
            | cons y ys =>
                simp only [List.cons_append, List.cons.injEq] at hsplit
                obtain ⟨rfl, -⟩ := hsplit
                exact absurd (hall ch (by simp)) hch
      | some rc =>
          obtain ⟨r, cc⟩ := rc
          have hch : ch ∈ DIGIPIN_ALPHABET := (lookup_isSome_iff ch).mp ⟨_, hcc⟩
          rw [ih (idx + 1) (narrowBoxDecode b r cc) c p]
          constructor
          · rintro ⟨l₁, l₂, rfl, hall, hc, rfl⟩
            refine ⟨ch :: l₁, l₂, rfl, ?_, hc, by simp; omega⟩
            intro x hx
            rcases List.mem_cons.mp hx with rfl | hx'
            · exact hch
            · exact hall x hx'
          · rintro ⟨l₁, l₂, hsplit, hall, hc, rfl⟩
            cases l₁ with
            | nil =>
                simp only [List.nil_append, List.cons.injEq] at hsplit
                obtain ⟨rfl, rfl⟩ := hsplit
                exact absurd hch hc
            | cons y ys =>
                simp only [List.cons_append, List.cons.injEq] at hsplit
                obtain ⟨rfl, hrest⟩ := hsplit
                refine ⟨ys, l₂, hrest, fun x hx => hall x (by simp [hx]), hc, by simp; omega⟩

/-- A list containing some non-alphabet character splits at its first one. -/
lemma exists_first_invalid : ∀ {cs : List Char},
    (∃ x ∈ cs, x ∉ DIGIPIN_ALPHABET) →
    ∃ l₁ c l₂, cs = l₁ ++ c :: l₂ ∧ (∀ x ∈ l₁, x ∈ DIGIPIN_ALPHABET) ∧
      c ∉ DIGIPIN_ALPHABET := by
  intro cs
  induction cs with
  | nil => intro h; simp at h
  | cons y ys ih =>
      intro h
      by_cases hy : y ∈ DIGIPIN_ALPHABET
      · obtain ⟨x, hx, hxn⟩ := h
        rcases List.mem_cons.mp hx with rfl | hx'
        · exact absurd hy hxn
        · obtain ⟨l₁, c, l₂, rfl, hall, hc⟩ := ih ⟨x, hx', hxn⟩
          refine ⟨y :: l₁, c, l₂, rfl, ?_, hc⟩
          intro z hz
          rcases List.mem_cons.mp hz with rfl | hz'
          · exact hy
          · exact hall z hz'
      · exact ⟨[], y, ys, rfl, by simp, hy⟩

/-- C6: on inputs whose cleaned form has exactly 10 characters, the decoder
fails with an invalid-character error iff some cleaned character is outside
the 16-symbol alphabet, and the error names the first offending character and
its 1-based position; `decode("39J49LL8T!")` cites '!' at position 10. -/
theorem decode_invalid_char_iff :
    (∀ s : String, (removeHyphens s).data.length = 10 →
      ((∃ c p, get_lat_lng_from_digi_pin s = .error (.invalidChar c p)) ↔
        ∃ x ∈ (removeHyphens s).data, x ∉ DIGIPIN_ALPHABET) ∧
      (∀ (c : Char) (p : Nat),
        get_lat_lng_from_digi_pin s = .error (.invalidChar c p) ↔
        ∃ l₁ l₂, (removeHyphens s).data = l₁ ++ c :: l₂ ∧
          (∀ x ∈ l₁, x ∈ DIGIPIN_ALPHABET) ∧ c ∉ DIGIPIN_ALPHABET ∧
          p = l₁.length + 1)) ∧
    get_lat_lng_from_digi_pin "39J49LL8T!" = .error (.invalidChar '!' 10) := by
  constructor
  · intro s h10
    have hget : ∀ (c : Char) (p : Nat),
        get_lat_lng_from_digi_pin s = .error (.invalidChar c p) ↔
        decodeLoop (removeHyphens s).data 0 BOUNDS = .error (.invalidChar c p) := by
      intro c p
      simp only [get_lat_lng_from_digi_pin]
      rw [if_neg (by simp [h10])]
      cases hd : decodeLoop (removeHyphens s).data 0 BOUNDS with
      | error e => simp
      | ok b => simp
    constructor
    · constructor
      · rintro ⟨c, p, he⟩
        rw [hget c p, decodeLoop_invalidChar_iff] at he
        obtain ⟨l₁, l₂, hsplit, -, hc, -⟩ := he
        exact ⟨c, by rw [hsplit]; simp, hc⟩
      · intro hx
        obtain ⟨l₁, c, l₂, hsplit, hall, hc⟩ := exists_first_invalid hx
        refine ⟨c, l₁.length + 1, ?_⟩
        rw [hget c (l₁.length + 1), decodeLoop_invalidChar_iff]
        exact ⟨l₁, l₂, hsplit, hall, hc, by omega⟩
    · intro c p
      rw [hget c p, decodeLoop_invalidChar_iff]
      constructor
      · rintro ⟨l₁, l₂, hsplit, hall, hc, hp⟩
        exact ⟨l₁, l₂, hsplit, hall, hc, by omega⟩
      · rintro ⟨l₁, l₂, hsplit, hall, hc, hp⟩
        exact ⟨l₁, l₂, hsplit, hall, hc, by omega⟩
  · with_unfolding_all rfl

/-- Witness for C6 at the malformed reference code. -/
theorem decode_invalid_char_iff_witness :
    ((removeHyphens "39J49LL8T!").data.length = 10) ∧
    (∃ l₁ l₂, (removeHyphens "39J49LL8T!").data = l₁ ++ '!' :: l₂ ∧
      (∀ x ∈ l₁, x ∈ DIGIPIN_ALPHABET) ∧ '!' ∉ DIGIPIN_ALPHABET ∧
      10 = l₁.length + 1) :=
  ⟨by with_unfolding_all rfl,
    (((decode_invalid_char_iff.1 "39J49LL8T!" (by with_unfolding_all rfl)).2 '!' 10).mp
      (by with_unfolding_all rfl))⟩

/-- One encoder step keeps the coordinate inside the narrowed box and
quarters both widths — including at the top/right boundary, where the clamp
absorbs the out-of-range floor value. -/
lemma encodeNextBox_spec (lat lon : ℚ) (b : Box)
    (h1 : b.minLat ≤ lat) (h2 : lat ≤ b.maxLat)
    (h3 : b.minLon ≤ lon) (h4 : lon ≤ b.maxLon)
    (h5 : 0 < b.maxLat - b.minLat) (h6 : 0 < b.maxLon - b.minLon) :
    (encodeNextBox lat lon b).minLat ≤ lat ∧ lat ≤ (encodeNextBox lat lon b).maxLat ∧
    (encodeNextBox lat lon b).minLon ≤ lon ∧ lon ≤ (encodeNextBox lat lon b).maxLon ∧
    (encodeNextBox lat lon b).maxLat - (encodeNextBox lat lon b).minLat
      = (b.maxLat - b.minLat) / 4 ∧
    (encodeNextBox lat lon b).maxLon - (encodeNextBox lat lon b).minLon
      = (b.maxLon - b.minLon) / 4 := by
  have hdlat : 0 < latDiv b := by unfold latDiv; linarith
  have hdlon : 0 < lonDiv b := by unfold lonDiv; linarith
  have h4lat := four_mul_latDiv b
  have h4lon := four_mul_lonDiv b
  set f : ℤ := ⌊(lat - b.minLat) / latDiv b⌋ with hf
  set g : ℤ := ⌊(lon - b.minLon) / lonDiv b⌋ with hg
  have hf0 : 0 ≤ f := Int.floor_nonneg.mpr (div_nonneg (by linarith) hdlat.le)
  have hg0 : 0 ≤ g := Int.floor_nonneg.mpr (div_nonneg (by linarith) hdlon.le)
  have hfle : (f : ℚ) ≤ (lat - b.minLat) / latDiv b := Int.floor_le _
  have hgle : (g : ℚ) ≤ (lon - b.minLon) / lonDiv b := Int.floor_le _
  have hflt : (lat - b.minLat) / latDiv b < (f : ℚ) + 1 := Int.lt_floor_add_one _
  have hglt : (lon - b.minLon) / lonDiv b < (g : ℚ) + 1 := Int.lt_floor_add_one _
  have hqlat : (lat - b.minLat) / latDiv b ≤ 4 := by
    rw [div_le_iff₀ hdlat]; linarith
  have hqlon : (lon - b.minLon) / lonDiv b ≤ 4 := by
    rw [div_le_iff₀ hdlon]; linarith
  have hf4 : f ≤ 4 := by
    have : (f : ℚ) ≤ 4 := le_trans hfle hqlat
    exact_mod_cast this
  have hg4 : g ≤ 4 := by
    have : (g : ℚ) ≤ 4 := le_trans hgle hqlon
    exact_mod_cast this
  have hfd : (f : ℚ) * latDiv b ≤ lat - b.minLat := by
    rw [← le_div_iff₀ hdlat]; exact hfle
  have hfd2 : lat - b.minLat < ((f : ℚ) + 1) * latDiv b := by
    rw [← div_lt_iff₀ hdlat]; exact hflt
  have hgd : (g : ℚ) * lonDiv b ≤ lon - b.minLon := by
    rw [← le_div_iff₀ hdlon]; exact hgle
  have hgd2 : lon - b.minLon < ((g : ℚ) + 1) * lonDiv b := by
    rw [← div_lt_iff₀ hdlon]; exact hglt
  have hrow : encRow lat b = 3 - min f 3 := by
    unfold encRow clamp03
    rw [← hf]
    omega
  have hcol : encCol lon b = min g 3 := by
    unfold encCol clamp03
    rw [← hg]
    omega
  have hlat4 : 4 ≤ f → lat - b.minLat = 4 * latDiv b := by
    intro h'
    have hfeq : f = 4 := le_antisymm hf4 h'
    have hq4 : (4 : ℚ) ≤ (lat - b.minLat) / latDiv b := by
      have := hfle; rw [hfeq] at this; exact_mod_cast this
    have := (le_div_iff₀ hdlat).mp hq4
    linarith
  have hlon4 : 4 ≤ g → lon - b.minLon = 4 * lonDiv b := by
    intro h'
    have hgeq : g = 4 := le_antisymm hg4 h'
    have hq4 : (4 : ℚ) ≤ (lon - b.minLon) / lonDiv b := by
      have := hgle; rw [hgeq] at this; exact_mod_cast this
    have := (le_div_iff₀ hdlon).mp hq4
    linarith
  have hA : ((min f 3 : ℤ) : ℚ) * latDiv b ≤ lat - b.minLat := by
    rcases lt_or_le f 4 with h' | h'
    · have hm : min f 3 = f := by omega
      rw [hm]; exact hfd
    · have hm : min f 3 = 3 := by omega
      rw [hm]; push_cast
      have := hlat4 h'
      linarith
  have hB : lat - b.minLat ≤ (((min f 3 : ℤ) : ℚ) + 1) * latDiv b := by
    rcases lt_or_le f 4 with h' | h'
    · have hm : min f 3 = f := by omega
      rw [hm]; exact hfd2.le
    · have hm : min f 3 = 3 := by omega
      rw [hm]; push_cast
      have := hlat4 h'
      linarith
  have hC : ((min g 3 : ℤ) : ℚ) * lonDiv b ≤ lon - b.minLon := by
    rcases lt_or_le g 4 with h' | h'
    · have hm : min g 3 = g := by omega
      rw [hm]; exact hgd
    · have hm : min g 3 = 3 := by omega
      rw [hm]; push_cast
      have := hlon4 h'
      linarith
  have hD : lon - b.minLon ≤ (((min g 3 : ℤ) : ℚ) + 1) * lonDiv b := by
    rcases lt_or_le g 4 with h' | h'
    · have hm : min g 3 = g := by omega
      rw [hm]; exact hgd2.le
    · have hm : min g 3 = 3 := by omega
      rw [hm]; push_cast
      have := hlon4 h'
      linarith
  unfold encodeNextBox narrowBoxEncode
  rw [hrow, hcol]
  dsimp only
  refine ⟨?_, ?_, ?_, ?_, ?_, ?_⟩
  · push_cast at hA ⊢
    linarith only [hA]
  · push_cast at hB ⊢
    linarith only [hB]
  · push_cast at hC ⊢
    linarith only [hC]
  · push_cast at hD ⊢
    linarith only [hD]
  · rw [← h4lat]; push_cast; ring
  · rw [← h4lon]; push_cast; ring

/-- Unfolding one decoder step on a recognised character. -/
lemma decodeLoop_cons_some {ch : Char} {r c : Nat}
    (h : grid_char_to_coords ch = some (r, c)) (rest : List Char) (idx : Nat) (b : Box) :
    decodeLoop (ch :: rest) idx b = decodeLoop rest (idx + 1) (narrowBoxDecode b r c) := by
  simp only [decodeLoop, h]

/-- Running the decoder over the encoder's own output (with separators
stripped) succeeds and retraces exactly the encoder's boxes: the final box
contains the original coordinate and has width `initial/4^levels`. -/
lemma decode_encode_loop (lat lon : ℚ) : ∀ (levels : List Nat) (idx : Nat) (b : Box),
    b.minLat ≤ lat → lat ≤ b.maxLat → b.minLon ≤ lon → lon ≤ b.maxLon →
    0 < b.maxLat - b.minLat → 0 < b.maxLon - b.minLon →
    ∃ bf : Box,
      decodeLoop ((encodeLevels lat lon levels b).filter (· ≠ '-')) idx b = .ok bf ∧
      ((encodeLevels lat lon levels b).filter (· ≠ '-')).length = levels.length ∧
      bf.minLat ≤ lat ∧ lat ≤ bf.maxLat ∧ bf.minLon ≤ lon ∧ lon ≤ bf.maxLon ∧
      bf.maxLat - bf.minLat = (b.maxLat - b.minLat) / 4 ^ levels.length ∧
      bf.maxLon - bf.minLon = (b.maxLon - b.minLon) / 4 ^ levels.length := by
  intro levels
  induction levels with
  | nil =>
      intro idx b h1 h2 h3 h4 h5 h6
      exact ⟨b, by simp [encodeLevels, decodeLoop], by simp [encodeLevels],
        h1, h2, h3, h4, by simp, by simp⟩
  | cons level rest ih =>
      intro idx b h1 h2 h3 h4 h5 h6
      have hne : gridChar (encRow lat b) (encCol lon b) ≠ '-' :=
        gridChar_ne_hyphen _ _ (clamp03_nonneg _) (clamp03_le_three _)
          (clamp03_nonneg _) (clamp03_le_three _)
      have hfil : (encodeLevels lat lon (level :: rest) b).filter (· ≠ '-')
          = gridChar (encRow lat b) (encCol lon b)
            :: (encodeLevels lat lon rest (encodeNextBox lat lon b)).filter (· ≠ '-') := by
        simp only [encodeLevels, List.filter_append, List.filter_cons]
        rw [seps_filter]
        simp [hne]
      obtain ⟨e1, e2, e3, e4, e5, e6⟩ := encodeNextBox_spec lat lon b h1 h2 h3 h4 h5 h6
      have hw5 : 0 < (encodeNextBox lat lon b).maxLat - (encodeNextBox lat lon b).minLat := by
        rw [e5]; positivity
      have hw6 : 0 < (encodeNextBox lat lon b).maxLon - (encodeNextBox lat lon b).minLon := by
        rw [e6]; positivity
      obtain ⟨bf, d1, d2, d3, d4, d5, d6, d7, d8⟩ :=
        ih (idx + 1) (encodeNextBox lat lon b) e1 e2 e3 e4 hw5 hw6
      have hlook := lookup_gridChar (encRow lat b) (encCol lon b)
        (clamp03_nonneg _) (clamp03_le_three _) (clamp03_nonneg _) (clamp03_le_three _)
      refine ⟨bf, ?_, ?_, d3, d4, d5, d6, ?_, ?_⟩
      · rw [hfil, decodeLoop_cons_some hlook,
          narrowBoxDecode_eq_encode b (encRow lat b) (encCol lon b)
            (clamp03_nonneg _) (clamp03_nonneg _)]
        exact d1
      · rw [hfil, List.length_cons, d2, List.length_cons]
      · rw [d7, e5, List.length_cons, pow_succ]
        ring
      · rw [d8, e6, List.length_cons, pow_succ]
        ring

/-- C1: decoding the code produced for any in-bounds coordinate succeeds and
returns a point within 4.5·10⁻⁵ degrees of the input in each component
(half the level-10 cell per axis plus the 6-decimal formatting error). -/
theorem roundtrip_approximation (lat lon : ℚ)
    (hlat : (2.5 : ℚ) ≤ lat ∧ lat ≤ 38.5) (hlon : (63.5 : ℚ) ≤ lon ∧ lon ≤ 99.5) :
    ∃ (s : String) (latOut lonOut : ℚ),
      get_digipin lat lon = .ok s ∧
      get_lat_lng_from_digi_pin s = .ok (latOut, lonOut) ∧
      |latOut - lat| ≤ 45 / 1000000 ∧ |lonOut - lon| ≤ 45 / 1000000 := by
  obtain ⟨bf, hdec, hlen, i1, i2, i3, i4, i5, i6⟩ :=
    decode_encode_loop lat lon digipinLevels 0 BOUNDS
      (by exact_mod_cast hlat.1) (by exact_mod_cast hlat.2)
      (by exact_mod_cast hlon.1) (by exact_mod_cast hlon.2)
      (by norm_num [BOUNDS]) (by norm_num [BOUNDS])
  have hwidthLat : bf.maxLat - bf.minLat = 36 / 1048576 := by
    rw [i5]
    norm_num [BOUNDS, digipinLevels]
  have hwidthLon : bf.maxLon - bf.minLon = 36 / 1048576 := by
    rw [i6]
    norm_num [BOUNDS, digipinLevels]
  refine ⟨⟨encodeLevels lat lon digipinLevels BOUNDS⟩,
    round6 ((bf.minLat + bf.maxLat) / 2), round6 ((bf.minLon + bf.maxLon) / 2),
    ?_, ?_, ?_, ?_⟩
  · simp [get_digipin, BOUNDS, hlat, hlon]
  · have hdata : (removeHyphens ⟨encodeLevels lat lon digipinLevels BOUNDS⟩).data
        = (encodeLevels lat lon digipinLevels BOUNDS).filter (· ≠ '-') := rfl
    simp only [get_lat_lng_from_digi_pin, hdata]
    rw [if_neg (by rw [hlen]; simp [digipinLevels]), hdec]
  · obtain ⟨a1, a2⟩ := abs_le.mp (round6_close ((bf.minLat + bf.maxLat) / 2))
    rw [abs_le]
    constructor <;> linarith
  · obtain ⟨a1, a2⟩ := abs_le.mp (round6_close ((bf.minLon + bf.maxLon) / 2))
    rw [abs_le]
    constructor <;> linarith

/-- Witness for C1 at the reference coordinate. -/
theorem roundtrip_approximation_witness :
    (((2.5 : ℚ) ≤ 28.622788 ∧ (28.622788 : ℚ) ≤ 38.5) ∧
      ((63.5 : ℚ) ≤ 77.213033 ∧ (77.213033 : ℚ) ≤ 99.5)) ∧
    (∃ (s : String) (latOut lonOut : ℚ),
      get_digipin 28.622788 77.213033 = .ok s ∧
      get_lat_lng_from_digi_pin s = .ok (latOut, lonOut) ∧
      |latOut - 28.622788| ≤ 45 / 1000000 ∧ |lonOut - 77.213033| ≤ 45 / 1000000) :=
  ⟨⟨⟨by norm_num, by norm_num⟩, ⟨by norm_num, by norm_num⟩⟩,
    roundtrip_approximation 28.622788 77.213033 ⟨by norm_num, by norm_num⟩
      ⟨by norm_num, by norm_num⟩⟩

end Digipin
